import Mathlib

/-!
Verification of the transfer-sweeper script `transmission_pause.py`.

The script prints a header, lists the transfers known to a remote
torrent service, and for every transfer in the `"seeding"` state applies
two independent stop conditions (too many seeders; no leechers), printing
one line and issuing one stop command per triggered condition, and finally
prints a summary count.

We embed the script as a trace-producing function.  Observable effects
(printed lines and stop commands sent to the remote service) become
`Event`s collected in order in a `RunState`.  Remote failures are modelled
by a `listOk : Bool` flag for the initial listing call and an
`oracle : Nat → Bool` deciding whether the k-th stop command issued during
the run is accepted by the service; a rejected command aborts the run,
returning the state at the abort point as an `Except.error`.
-/

/-- One tracker's report for a transfer (fields consumed by the script). -/
structure TrackerStat where
  seederCount : Nat
  leecherCount : Nat
deriving DecidableEq

/-- One torrent job as returned by the listing call (fields consumed). -/
structure Transfer where
  name : String
  status : String
  trackerStats : List TrackerStat
deriving DecidableEq

/-- `MAX_SEEDERS = 5` from the source. -/
def MAX_SEEDERS : Nat := 5

/-- `max((stats['seederCount'] for stats in t.trackerStats), default=0)`. -/
def maxSeeders (t : Transfer) : Nat :=
  (t.trackerStats.map (fun s => s.seederCount)).foldl max 0

/-- `any(stats['leecherCount'] > 0 for stats in t.trackerStats)`. -/
def hasPeers (t : Transfer) : Bool :=
  t.trackerStats.any (fun s => s.leecherCount > 0)

/-- Python's `f'{n:03}'` for a non-negative integer: zero-pad to width 3. -/
def pad3 (n : Nat) : String :=
  String.mk (List.replicate (3 - (toString n).length) '0') ++ toString n

/-- The line `f'[{seeders:03}] {name}'`. -/
def seederLine (n : Nat) (nm : String) : String :=
  "[" ++ pad3 n ++ "] " ++ nm

/-- The line `f'[nop] {name}'`. -/
def nopLine (nm : String) : String :=
  "[nop] " ++ nm

/-- The line `f'Pausing all with >{MAX_SEEDERS} seeders or no leechers'`. -/
def headerLine (threshold : Nat) : String :=
  "Pausing all with >" ++ toString threshold ++ " seeders or no leechers"

/-- The line `f'Paused {pausedCount}'`. -/
def summaryLine (c : Nat) : String :=
  "Paused " ++ toString c

/-- An observable effect of the script, in program order. -/
inductive Event where
  /-- The header line printed before contacting the service. -/
  | header (line : String)
  /-- A per-action log line (`[NNN] name` or `[nop] name`). -/
  | action (line : String)
  /-- A `t.stop()` command sent to the remote service for transfer `nm`. -/
  | stopCmd (nm : String)
  /-- The final `Paused N` summary line. -/
  | summary (line : String)
deriving DecidableEq

/-- Run state: output so far, the `pausedCount` counter, and the number of
stop commands issued so far (the index fed to the failure oracle). -/
structure RunState where
  out : List Event
  pausedCount : Nat
  nStops : Nat
deriving DecidableEq

/-- `t.stop()`: record the command; the oracle decides whether the remote
service accepts it.  A rejected command aborts the run at this point. -/
def doStop (oracle : Nat → Bool) (nm : String) (st : RunState) :
    Except RunState RunState :=
  let st2 : RunState := ⟨st.out ++ [Event.stopCmd nm], st.pausedCount, st.nStops + 1⟩
  if oracle st.nStops then Except.ok st2 else Except.error st2

/-- The `if seeders > MAX_SEEDERS` branch: print, stop, increment. -/
def branchSeeders (oracle : Nat → Bool) (threshold : Nat) (t : Transfer)
    (st : RunState) : Except RunState RunState :=
  if maxSeeders t > threshold then
    let st1 : RunState :=
      ⟨st.out ++ [Event.action (seederLine (maxSeeders t) t.name)],
       st.pausedCount, st.nStops⟩
    match doStop oracle t.name st1 with
    | Except.ok st2 => Except.ok ⟨st2.out, st2.pausedCount + 1, st2.nStops⟩
    | Except.error e => Except.error e
  else Except.ok st

/-- The `if not has_peers` branch: print, stop, increment. -/
def branchNoPeers (oracle : Nat → Bool) (t : Transfer) (st : RunState) :
    Except RunState RunState :=
  if !(hasPeers t) then
    let st1 : RunState :=
      ⟨st.out ++ [Event.action (nopLine t.name)], st.pausedCount, st.nStops⟩
    match doStop oracle t.name st1 with
    | Except.ok st2 => Except.ok ⟨st2.out, st2.pausedCount + 1, st2.nStops⟩
    | Except.error e => Except.error e
  else Except.ok st

/-- The loop body for one transfer: skip unless `t.status == 'seeding'`,
then the two independent branches in source order. -/
def processTransfer (oracle : Nat → Bool) (threshold : Nat) (t : Transfer)
    (st : RunState) : Except RunState RunState :=
  if t.status = "seeding" then
    match branchSeeders oracle threshold t st with
    | Except.ok st1 => branchNoPeers oracle t st1
    | Except.error e => Except.error e
  else Except.ok st

/-- The `for t in torrents` loop. -/
def sweepTransfers (oracle : Nat → Bool) (threshold : Nat) :
    List Transfer → RunState → Except RunState RunState
  | [], st => Except.ok st
  | t :: ts, st =>
    match processTransfer oracle threshold t st with
    | Except.ok st1 => sweepTransfers oracle threshold ts st1
    | Except.error e => Except.error e

/-- The whole script: print the header, list the transfers (`listOk` says
whether `get_torrents` succeeds), run the loop, print the summary. -/
def runProgram (listOk : Bool) (oracle : Nat → Bool) (threshold : Nat)
    (ts : List Transfer) : Except RunState RunState :=
  let st0 : RunState := ⟨[Event.header (headerLine threshold)], 0, 0⟩
  if listOk then
    match sweepTransfers oracle threshold ts st0 with
    | Except.ok st =>
      Except.ok ⟨st.out ++ [Event.summary (summaryLine st.pausedCount)],
                 st.pausedCount, st.nStops⟩
    | Except.error e => Except.error e
  else Except.error st0

/-- The script as shipped, with its hard-coded threshold. -/
def mainProgram (listOk : Bool) (oracle : Nat → Bool) (ts : List Transfer) :
    Except RunState RunState :=
  runProgram listOk oracle MAX_SEEDERS ts

/-- The oracle of a run in which the remote service accepts every stop. -/
def okOracle : Nat → Bool := fun _ => true

/-- The output trace of a run, whether it completed or aborted. -/
def outOf : Except RunState RunState → List Event
  | Except.ok st => st.out
  | Except.error st => st.out

/-- Is this event a per-action log line? -/
def isAction : Event → Bool
  | Event.action _ => true
  | _ => false

/-- Is this event a stop command? -/
def isStopCmd : Event → Bool
  | Event.stopCmd _ => true
  | _ => false

/-- Is this event the header line? -/
def isHeader : Event → Bool
  | Event.header _ => true
  | _ => false

/-- Number of per-action log lines in a trace. -/
def countActions (l : List Event) : Nat := (l.filter isAction).length

/-- Number of stop commands in a trace. -/
def countStops (l : List Event) : Nat := (l.filter isStopCmd).length

/-- Number of header lines in a trace. -/
def countHeaders (l : List Event) : Nat := (l.filter isHeader).length

/-- How many of the two conditions trigger for `t` (0 when not seeding). -/
def triggerCount (threshold : Nat) (t : Transfer) : Nat :=
  if t.status = "seeding" then
    (if maxSeeders t > threshold then 1 else 0) +
      (if !(hasPeers t) then 1 else 0)
  else 0

/-- The events one transfer contributes on the success path. -/
def transferEvents (threshold : Nat) (t : Transfer) : List Event :=
  if t.status = "seeding" then
    (if maxSeeders t > threshold then
       [Event.action (seederLine (maxSeeders t) t.name), Event.stopCmd t.name]
     else [])
    ++ (if !(hasPeers t) then
          [Event.action (nopLine t.name), Event.stopCmd t.name]
        else [])
  else []

/-- A trace fragment holding only per-action lines and stop commands. -/
def actionsOnly (l : List Event) : Prop :=
  ∀ e ∈ l, isAction e = true ∨ isStopCmd e = true

lemma actionsOnly_nil : actionsOnly [] := by
  intro e he
  cases he

lemma actionsOnly_pair (l nm : String) :
    actionsOnly [Event.action l, Event.stopCmd nm] := by
  intro e he
  rcases List.mem_cons.mp he with h | h
  · subst h; exact Or.inl rfl
  · have h2 := List.mem_singleton.mp h
    subst h2; exact Or.inr rfl

lemma actionsOnly_append {l1 l2 : List Event} (h1 : actionsOnly l1)
    (h2 : actionsOnly l2) : actionsOnly (l1 ++ l2) := by
  intro e he
  rcases List.mem_append.mp he with h | h
  · exact h1 e h
  · exact h2 e h

lemma processTransfer_okOracle (threshold : Nat) (t : Transfer)
    (st : RunState) :
    processTransfer okOracle threshold t st =
      Except.ok ⟨st.out ++ transferEvents threshold t,
                 st.pausedCount + triggerCount threshold t,
                 st.nStops + triggerCount threshold t⟩ := by
  unfold processTransfer branchSeeders branchNoPeers doStop transferEvents
    triggerCount okOracle
  by_cases h1 : t.status = "seeding" <;>
    by_cases h2 : threshold < maxSeeders t <;>
    by_cases h3 : hasPeers t <;>
    simp [h1, h2, h3]

lemma sweepTransfers_okOracle (threshold : Nat) (ts : List Transfer) :
    ∀ st : RunState, sweepTransfers okOracle threshold ts st =
      Except.ok ⟨st.out ++ (ts.map (transferEvents threshold)).flatten,
                 st.pausedCount + (ts.map (triggerCount threshold)).sum,
                 st.nStops + (ts.map (triggerCount threshold)).sum⟩ := by
  induction ts with
  | nil => intro st; simp [sweepTransfers]
  | cons t ts ih =>
    intro st
    show (match processTransfer okOracle threshold t st with
      | Except.ok st1 => sweepTransfers okOracle threshold ts st1
      | Except.error e => Except.error e) = _
    rw [processTransfer_okOracle]
    show sweepTransfers okOracle threshold ts _ = _
    rw [ih]
    simp [Nat.add_assoc]

lemma runProgram_okOracle (threshold : Nat) (ts : List Transfer) :
    runProgram true okOracle threshold ts =
      Except.ok ⟨Event.header (headerLine threshold) ::
                   ((ts.map (transferEvents threshold)).flatten ++
                    [Event.summary
                      (summaryLine ((ts.map (triggerCount threshold)).sum))]),
                 (ts.map (triggerCount threshold)).sum,
                 (ts.map (triggerCount threshold)).sum⟩ := by
  show (match sweepTransfers okOracle threshold ts
          ⟨[Event.header (headerLine threshold)], 0, 0⟩ with
    | Except.ok st =>
      Except.ok (⟨st.out ++ [Event.summary (summaryLine st.pausedCount)],
                  st.pausedCount, st.nStops⟩ : RunState)
    | Except.error e => Except.error e) = _
  rw [sweepTransfers_okOracle]
  simp

lemma le_foldl_max (l : List Nat) (a : Nat) : a ≤ l.foldl max a := by
  induction l generalizing a with
  | nil => exact Nat.le_refl a
  | cons x xs ih => exact Nat.le_trans (Nat.le_max_left a x) (ih (max a x))

lemma mem_le_foldl_max (l : List Nat) (a x : Nat) (hx : x ∈ l) :
    x ≤ l.foldl max a := by
  induction l generalizing a with
  | nil => cases hx
  | cons y ys ih =>
    rcases List.mem_cons.mp hx with h | h
    · subst h
      exact Nat.le_trans (Nat.le_max_right a x) (le_foldl_max ys (max a x))
    · exact ih (max a y) h

lemma foldl_max_mem (l : List Nat) (a : Nat) :
    l.foldl max a = a ∨ l.foldl max a ∈ l := by
  induction l generalizing a with
  | nil => exact Or.inl rfl
  | cons x xs ih =>
    rcases ih (max a x) with h | h
    · rcases Nat.le_total a x with hax | hxa
      · right
        rw [List.foldl_cons, h, Nat.max_eq_right hax]
        exact List.mem_cons_self x xs
      · left
        rw [List.foldl_cons, h, Nat.max_eq_left hxa]
    · right
      rw [List.foldl_cons]
      exact List.mem_cons_of_mem x h

lemma maxSeeders_nil (t : Transfer) (h : t.trackerStats = []) :
    maxSeeders t = 0 := by
  simp [maxSeeders, h]

lemma seederCount_le_maxSeeders (t : Transfer) (s : TrackerStat)
    (hs : s ∈ t.trackerStats) : s.seederCount ≤ maxSeeders t :=
  mem_le_foldl_max _ 0 s.seederCount
    (List.mem_map.mpr ⟨s, hs, rfl⟩)

lemma maxSeeders_attained (t : Transfer) (h : t.trackerStats ≠ []) :
    ∃ s ∈ t.trackerStats, maxSeeders t = s.seederCount := by
  rcases foldl_max_mem (t.trackerStats.map (fun s => s.seederCount)) 0 with
    h0 | hm
  · rcases List.exists_mem_of_ne_nil t.trackerStats h with ⟨s, hs⟩
    refine ⟨s, hs, ?_⟩
    have hle := seederCount_le_maxSeeders t s hs
    have : maxSeeders t = 0 := h0
    omega
  · rcases List.mem_map.mp hm with ⟨s, hs, he⟩
    exact ⟨s, hs, he.symm⟩

lemma hasPeers_iff (t : Transfer) :
    hasPeers t = true ↔ ∃ s ∈ t.trackerStats, s.leecherCount > 0 := by
  simp [hasPeers, List.any_eq_true]

lemma branchSeeders_out (oracle : Nat → Bool) (threshold : Nat)
    (t : Transfer) (st : RunState) :
    ∃ suf, outOf (branchSeeders oracle threshold t st) = st.out ++ suf ∧
      actionsOnly suf := by
  unfold branchSeeders doStop
  by_cases h2 : threshold < maxSeeders t
  · by_cases ho : oracle st.nStops
    · exact ⟨[Event.action (seederLine (maxSeeders t) t.name),
              Event.stopCmd t.name],
        by simp [outOf, h2, ho], actionsOnly_pair _ _⟩
    · exact ⟨[Event.action (seederLine (maxSeeders t) t.name),
              Event.stopCmd t.name],
        by simp [outOf, h2, ho], actionsOnly_pair _ _⟩
  · exact ⟨[], by simp [outOf, h2], actionsOnly_nil⟩

lemma branchNoPeers_out (oracle : Nat → Bool) (t : Transfer)
    (st : RunState) :
    ∃ suf, outOf (branchNoPeers oracle t st) = st.out ++ suf ∧
      actionsOnly suf := by
  unfold branchNoPeers doStop
  by_cases h3 : hasPeers t
  · exact ⟨[], by simp [outOf, h3], actionsOnly_nil⟩
  · by_cases ho : oracle st.nStops
    · exact ⟨[Event.action (nopLine t.name), Event.stopCmd t.name],
        by simp [outOf, h3, ho], actionsOnly_pair _ _⟩
    · exact ⟨[Event.action (nopLine t.name), Event.stopCmd t.name],
        by simp [outOf, h3, ho], actionsOnly_pair _ _⟩

lemma processTransfer_out (oracle : Nat → Bool) (threshold : Nat)
    (t : Transfer) (st : RunState) :
    ∃ suf, outOf (processTransfer oracle threshold t st) = st.out ++ suf ∧
      actionsOnly suf := by
  unfold processTransfer
  by_cases h1 : t.status = "seeding"
  · simp only [h1, if_pos]
    cases hb : branchSeeders oracle threshold t st with
    | ok st1 =>
      obtain ⟨suf1, e1, a1⟩ := branchSeeders_out oracle threshold t st
      rw [hb] at e1
      obtain ⟨suf2, e2, a2⟩ := branchNoPeers_out oracle t st1
      refine ⟨suf1 ++ suf2, ?_, actionsOnly_append a1 a2⟩
      show outOf (branchNoPeers oracle t st1) = _
      rw [e2]
      show st1.out ++ suf2 = _
      rw [show st1.out = st.out ++ suf1 from e1, List.append_assoc]
    | error e =>
      obtain ⟨suf1, e1, a1⟩ := branchSeeders_out oracle threshold t st
      rw [hb] at e1
      exact ⟨suf1, e1, a1⟩
  · exact ⟨[], by simp [outOf, h1], actionsOnly_nil⟩

lemma sweepTransfers_out (oracle : Nat → Bool) (threshold : Nat) :
    ∀ (ts : List Transfer) (st : RunState),
      ∃ suf, outOf (sweepTransfers oracle threshold ts st) = st.out ++ suf ∧
        actionsOnly suf := by
  intro ts
  induction ts with
  | nil => exact fun st => ⟨[], by simp [sweepTransfers, outOf], actionsOnly_nil⟩
  | cons t ts ih =>
    intro st
    obtain ⟨suf1, e1, a1⟩ := processTransfer_out oracle threshold t st
    cases hp : processTransfer oracle threshold t st with
    | ok st1 =>
      rw [hp] at e1
      obtain ⟨suf2, e2, a2⟩ := ih st1
      refine ⟨suf1 ++ suf2, ?_, actionsOnly_append a1 a2⟩
      show outOf (match processTransfer oracle threshold t st with
        | Except.ok st1 => sweepTransfers oracle threshold ts st1
        | Except.error e => Except.error e) = _
      rw [hp]
      show outOf (sweepTransfers oracle threshold ts st1) = _
      rw [e2]
      show st1.out ++ suf2 = _
      rw [show st1.out = st.out ++ suf1 from e1, List.append_assoc]
    | error e =>
      rw [hp] at e1
      refine ⟨suf1, ?_, a1⟩
      show outOf (match processTransfer oracle threshold t st with
        | Except.ok st1 => sweepTransfers oracle threshold ts st1
        | Except.error e => Except.error e) = _
      rw [hp]
      exact e1

lemma runProgram_error_out (oracle : Nat → Bool) (threshold : Nat)
    (ts : List Transfer) (st2 : RunState)
    (h : runProgram true oracle threshold ts = Except.error st2) :
    ∃ suf, st2.out = Event.header (headerLine threshold) :: suf ∧
      actionsOnly suf := by
  obtain ⟨suf, e1, a1⟩ := sweepTransfers_out oracle threshold ts
    ⟨[Event.header (headerLine threshold)], 0, 0⟩
  have h2 : (match sweepTransfers oracle threshold ts
      ⟨[Event.header (headerLine threshold)], 0, 0⟩ with
    | Except.ok st =>
      Except.ok (⟨st.out ++ [Event.summary (summaryLine st.pausedCount)],
                  st.pausedCount, st.nStops⟩ : RunState)
    | Except.error e => Except.error e) = Except.error st2 := h
  cases hs : sweepTransfers oracle threshold ts
      ⟨[Event.header (headerLine threshold)], 0, 0⟩ with
  | ok st => rw [hs] at h2; exact absurd h2 (by simp)
  | error e =>
    rw [hs] at h2
    have he : e = st2 := by
      cases h2
      rfl
    rw [hs] at e1
    subst he
    exact ⟨suf, e1, a1⟩

lemma countActions_append (l1 l2 : List Event) :
    countActions (l1 ++ l2) = countActions l1 + countActions l2 := by
  simp [countActions, List.filter_append]

lemma countStops_append (l1 l2 : List Event) :
    countStops (l1 ++ l2) = countStops l1 + countStops l2 := by
  simp [countStops, List.filter_append]

lemma countActions_transferEvents (threshold : Nat) (t : Transfer) :
    countActions (transferEvents threshold t) = triggerCount threshold t := by
  unfold countActions transferEvents triggerCount
  by_cases h1 : t.status = "seeding" <;>
    by_cases h2 : threshold < maxSeeders t <;>
    by_cases h3 : hasPeers t <;>
    simp [h1, h2, h3, isAction]

lemma countStops_transferEvents (threshold : Nat) (t : Transfer) :
    countStops (transferEvents threshold t) = triggerCount threshold t := by
  unfold countStops transferEvents triggerCount
  by_cases h1 : t.status = "seeding" <;>
    by_cases h2 : threshold < maxSeeders t <;>
    by_cases h3 : hasPeers t <;>
    simp [h1, h2, h3, isStopCmd]

lemma countActions_flatten (threshold : Nat) (ts : List Transfer) :
    countActions ((ts.map (transferEvents threshold)).flatten) =
      (ts.map (triggerCount threshold)).sum := by
  induction ts with
  | nil => simp [countActions]
  | cons t ts ih =>
    simp only [List.map_cons, List.flatten_cons, List.sum_cons,
      countActions_append, countActions_transferEvents, ih]

lemma countStops_flatten (threshold : Nat) (ts : List Transfer) :
    countStops ((ts.map (transferEvents threshold)).flatten) =
      (ts.map (triggerCount threshold)).sum := by
  induction ts with
  | nil => simp [countStops]
  | cons t ts ih =>
    simp only [List.map_cons, List.flatten_cons, List.sum_cons,
      countStops_append, countStops_transferEvents, ih]

/-- C1: for a seeding transfer whose max seeder count exceeds the threshold
and none of whose trackers reports a leecher, the sweep issues two stop
commands, prints the seeder-count-tagged line first and the [nop] line
second, and increments the stopped counter by 2. -/
theorem C1_both_conditions_double_stop (threshold : Nat) (t : Transfer)
    (st : RunState) (h1 : t.status = "seeding")
    (h2 : maxSeeders t > threshold)
    (h3 : ∀ s ∈ t.trackerStats, ¬ s.leecherCount > 0) :
    processTransfer okOracle threshold t st =
      Except.ok ⟨st.out ++
          [Event.action (seederLine (maxSeeders t) t.name),
           Event.stopCmd t.name,
           Event.action (nopLine t.name),
           Event.stopCmd t.name],
        st.pausedCount + 2, st.nStops + 2⟩ := by
  have hp : hasPeers t = false := by
    cases hb : hasPeers t
    · rfl
    · rcases (hasPeers_iff t).mp hb with ⟨s, hs, hl⟩
      exact absurd hl (h3 s hs)
  rw [processTransfer_okOracle]
  unfold transferEvents triggerCount
  simp [h1, h2, hp]

/-- Witness for C1 at a concrete seeding transfer with stats
`[{seederCount := 10, leecherCount := 0}]` and threshold 5. -/
theorem C1_both_conditions_double_stop_witness :
    processTransfer okOracle 5 ⟨"x", "seeding", [⟨10, 0⟩]⟩ ⟨[], 0, 0⟩ =
      Except.ok ⟨[Event.action "[010] x", Event.stopCmd "x",
                  Event.action "[nop] x", Event.stopCmd "x"], 2, 2⟩ := by
  have h := C1_both_conditions_double_stop 5 ⟨"x", "seeding", [⟨10, 0⟩]⟩
    ⟨[], 0, 0⟩ rfl (by decide) (by decide)
  exact h.trans (by rfl)

/-- C2: for a seeding transfer, `maxSeeders` is the maximum of the tracker
seeder counts (0 when there are no trackers), and the seeder branch stops,
logs the count-tagged line and increments the counter exactly when
`maxSeeders` strictly exceeds the threshold. -/
theorem C2_seeder_threshold_branch (threshold : Nat) (t : Transfer)
    (st : RunState) (h1 : t.status = "seeding") :
    (t.trackerStats = [] → maxSeeders t = 0) ∧
    (∀ s ∈ t.trackerStats, s.seederCount ≤ maxSeeders t) ∧
    (t.trackerStats ≠ [] →
      ∃ s ∈ t.trackerStats, maxSeeders t = s.seederCount) ∧
    processTransfer okOracle threshold t st =
      Except.ok ⟨st.out ++
          ((if maxSeeders t > threshold then
              [Event.action (seederLine (maxSeeders t) t.name),
               Event.stopCmd t.name] else []) ++
           (if !(hasPeers t) then
              [Event.action (nopLine t.name), Event.stopCmd t.name]
            else [])),
        st.pausedCount + ((if maxSeeders t > threshold then 1 else 0) +
          (if !(hasPeers t) then 1 else 0)),
        st.nStops + ((if maxSeeders t > threshold then 1 else 0) +
          (if !(hasPeers t) then 1 else 0))⟩ := by
  refine ⟨maxSeeders_nil t, fun s hs => seederCount_le_maxSeeders t s hs,
    maxSeeders_attained t, ?_⟩
  rw [processTransfer_okOracle]
  unfold transferEvents triggerCount
  rw [if_pos h1, if_pos h1]

/-- Witness for C2 at a concrete seeding transfer with stats
`[{seederCount := 6, leecherCount := 1}]` and threshold 5: only the seeder
branch triggers. -/
theorem C2_seeder_threshold_branch_witness :
    processTransfer okOracle 5 ⟨"y", "seeding", [⟨6, 1⟩]⟩ ⟨[], 0, 0⟩ =
      Except.ok ⟨[Event.action "[006] y", Event.stopCmd "y"], 1, 1⟩ := by
  have h := (C2_seeder_threshold_branch 5 ⟨"y", "seeding", [⟨6, 1⟩]⟩
    ⟨[], 0, 0⟩ rfl).2.2.2
  exact h.trans (by rfl)

/-- C3: for a seeding transfer, `hasPeers` holds exactly when some tracker
reports a positive leecher count, and the no-peers branch stops, logs the
[nop] line and increments the counter exactly when `hasPeers` is false; in
particular a seeding transfer with no tracker stats and threshold 5 gets
exactly one stop command, one [nop] line, and a counter increment of 1. -/
theorem C3_no_peers_branch (threshold : Nat) (t : Transfer)
    (st : RunState) (h1 : t.status = "seeding") :
    (hasPeers t = true ↔ ∃ s ∈ t.trackerStats, s.leecherCount > 0) ∧
    processTransfer okOracle threshold t st =
      Except.ok ⟨st.out ++
          ((if maxSeeders t > threshold then
              [Event.action (seederLine (maxSeeders t) t.name),
               Event.stopCmd t.name] else []) ++
           (if !(hasPeers t) then
              [Event.action (nopLine t.name), Event.stopCmd t.name]
            else [])),
        st.pausedCount + ((if maxSeeders t > threshold then 1 else 0) +
          (if !(hasPeers t) then 1 else 0)),
        st.nStops + ((if maxSeeders t > threshold then 1 else 0) +
          (if !(hasPeers t) then 1 else 0))⟩ ∧
    (t.trackerStats = [] →
      processTransfer okOracle 5 t st =
        Except.ok ⟨st.out ++
            [Event.action (nopLine t.name), Event.stopCmd t.name],
          st.pausedCount + 1, st.nStops + 1⟩) := by
  refine ⟨hasPeers_iff t, ?_, ?_⟩
  · rw [processTransfer_okOracle]
    unfold transferEvents triggerCount
    rw [if_pos h1, if_pos h1]
  · intro hnil
    have hm : maxSeeders t = 0 := maxSeeders_nil t hnil
    have hp : hasPeers t = false := by simp [hasPeers, hnil]
    rw [processTransfer_okOracle]
    unfold transferEvents triggerCount
    simp [h1, hm, hp]

/-- Witness for C3 at a concrete seeding transfer with empty tracker stats
and threshold 5. -/
theorem C3_no_peers_branch_witness :
    processTransfer okOracle 5 ⟨"z", "seeding", []⟩ ⟨[], 0, 0⟩ =
      Except.ok ⟨[Event.action "[nop] z", Event.stopCmd "z"], 1, 1⟩ := by
  have h := (C3_no_peers_branch 5 ⟨"z", "seeding", []⟩ ⟨[], 0, 0⟩ rfl).2.2 rfl
  exact h.trans (by rfl)

/-- C4: a transfer whose status is not "seeding" is skipped entirely: no
stop command, no log line, no counter change, whatever its tracker stats
and whatever the failure oracle. -/
theorem C4_not_seeding_skipped (oracle : Nat → Bool) (threshold : Nat)
    (t : Transfer) (st : RunState) (h : t.status ≠ "seeding") :
    processTransfer oracle threshold t st = Except.ok st := by
  unfold processTransfer
  rw [if_neg h]

/-- Witness for C4 at a concrete "downloading" transfer whose stats would
trigger both conditions were it seeding. -/
theorem C4_not_seeding_skipped_witness :
    processTransfer okOracle 5 ⟨"w", "downloading", [⟨10, 0⟩]⟩ ⟨[], 0, 0⟩ =
      Except.ok ⟨[], 0, 0⟩ :=
  C4_not_seeding_skipped okOracle 5 ⟨"w", "downloading", [⟨10, 0⟩]⟩
    ⟨[], 0, 0⟩ (by decide)

lemma countStops_header_cons (line : String) (l : List Event) :
    countStops (Event.header line :: l) = countStops l := by
  simp [countStops, List.filter_cons, isStopCmd]

lemma countActions_header_cons (line : String) (l : List Event) :
    countActions (Event.header line :: l) = countActions l := by
  simp [countActions, List.filter_cons, isAction]

lemma countStops_summary_single (line : String) :
    countStops [Event.summary line] = 0 := by
  simp [countStops, List.filter_cons, isStopCmd]

lemma countActions_summary_single (line : String) :
    countActions [Event.summary line] = 0 := by
  simp [countActions, List.filter_cons, isAction]

lemma three_le_pad3_length (n : Nat) : 3 ≤ (pad3 n).length := by
  unfold pad3
  rw [String.length_append]
  have h1 : (String.mk (List.replicate (3 - (toString n).length) '0')).length
      = 3 - (toString n).length := by
    show (List.replicate (3 - (toString n).length) '0').length = _
    simp
  rw [h1]
  omega

lemma action_mem_transferEvents {threshold : Nat} {t : Transfer}
    {line : String} (h : Event.action line ∈ transferEvents threshold t) :
    line = seederLine (maxSeeders t) t.name ∨ line = nopLine t.name := by
  unfold transferEvents at h
  by_cases h1 : t.status = "seeding" <;>
    by_cases h2 : threshold < maxSeeders t <;>
    by_cases h3 : hasPeers t <;>
    simp [h1, h2, h3] at h <;> tauto

/-- C5: a run in which the service accepts every command completes, and the
count in its final summary line equals the sum over the transfers of the
number of independently triggered conditions (up to 2 per transfer), which
also equals the total number of stop commands issued. -/
theorem C5_summary_count (threshold : Nat) (ts : List Transfer) :
    ∃ st, runProgram true okOracle threshold ts = Except.ok st ∧
      st.pausedCount = (ts.map (triggerCount threshold)).sum ∧
      st.pausedCount = countStops st.out ∧
      st.out.getLast? = some (Event.summary (summaryLine st.pausedCount)) := by
  refine ⟨_, runProgram_okOracle threshold ts, rfl, ?_, ?_⟩
  · show (ts.map (triggerCount threshold)).sum =
      countStops (Event.header (headerLine threshold) ::
        ((ts.map (transferEvents threshold)).flatten ++
         [Event.summary
           (summaryLine ((ts.map (triggerCount threshold)).sum))]))
    rw [countStops_header_cons, countStops_append, countStops_flatten,
      countStops_summary_single]
    rfl
  · show (Event.header (headerLine threshold) ::
        ((ts.map (transferEvents threshold)).flatten ++
         [Event.summary
           (summaryLine ((ts.map (triggerCount threshold)).sum))])).getLast?
      = _
    rw [← List.cons_append, List.getLast?_concat]

/-- C6: on a completed run, every per-action line is either a
seeder-count line `[NNN] name` with the count zero-padded to at least 3
digits, or a no-peers line `[nop] name`, and the run ends with the summary
line `Paused N`. -/
theorem C6_output_line_format (threshold : Nat) (ts : List Transfer) :
    ∃ st, runProgram true okOracle threshold ts = Except.ok st ∧
      (∀ line, Event.action line ∈ st.out →
        (∃ n nm, line = seederLine n nm ∧ 3 ≤ (pad3 n).length) ∨
        ∃ nm, line = nopLine nm) ∧
      st.out.getLast? =
        some (Event.summary ("Paused " ++ toString st.pausedCount)) := by
  refine ⟨_, runProgram_okOracle threshold ts, ?_, ?_⟩
  · intro line hline
    have hm : Event.action line ∈
        (ts.map (transferEvents threshold)).flatten := by
      rcases List.mem_cons.mp hline with h | h
      · exact Event.noConfusion h
      · rcases List.mem_append.mp h with h | h
        · exact h
        · exact Event.noConfusion (List.mem_singleton.mp h)
    rcases List.mem_flatten.mp hm with ⟨l, hl, hel⟩
    rcases List.mem_map.mp hl with ⟨t, ht, rfl⟩
    rcases action_mem_transferEvents hel with h | h
    · exact Or.inl ⟨maxSeeders t, t.name, h, three_le_pad3_length _⟩
    · exact Or.inr ⟨t.name, h⟩
  · show (Event.header (headerLine threshold) ::
        ((ts.map (transferEvents threshold)).flatten ++
         [Event.summary
           (summaryLine ((ts.map (triggerCount threshold)).sum))])).getLast?
      = _
    rw [← List.cons_append, List.getLast?_concat]
    rfl

lemma isHeader_eq_false {e : Event}
    (h : isAction e = true ∨ isStopCmd e = true) : isHeader e = false := by
  cases e <;> simp [isAction, isStopCmd, isHeader] at h ⊢

lemma countHeaders_eq_zero {l : List Event}
    (h : ∀ e ∈ l, isHeader e = false) : countHeaders l = 0 := by
  unfold countHeaders
  have hf : l.filter isHeader = [] := List.filter_eq_nil_iff.mpr (by
    intro a ha
    simp [h a ha])
  rw [hf]
  rfl

lemma countHeaders_header_cons (line : String) (l : List Event) :
    countHeaders (Event.header line :: l) = countHeaders l + 1 := by
  simp [countHeaders, List.filter_cons, isHeader]

/-- C7: a failed listing call aborts the run right after the header; a
rejected stop command aborts the sweep with no later transfer evaluated;
and an aborted run never prints the final summary line. -/
theorem C7_error_aborts_run (oracle : Nat → Bool) (threshold : Nat)
    (ts : List Transfer) (t : Transfer) (st e : RunState)
    (he : processTransfer oracle threshold t st = Except.error e) :
    runProgram false oracle threshold ts =
      Except.error ⟨[Event.header (headerLine threshold)], 0, 0⟩ ∧
    sweepTransfers oracle threshold (t :: ts) st = Except.error e ∧
    ∀ st2, runProgram true oracle threshold ts = Except.error st2 →
      ∀ line, Event.summary line ∉ st2.out := by
  refine ⟨rfl, ?_, ?_⟩
  · show (match processTransfer oracle threshold t st with
      | Except.ok st1 => sweepTransfers oracle threshold ts st1
      | Except.error e => Except.error e) = Except.error e
    rw [he]
  · intro st2 h2 line hmem
    obtain ⟨suf, hout, a1⟩ := runProgram_error_out oracle threshold ts st2 h2
    rw [hout] at hmem
    rcases List.mem_cons.mp hmem with h | h
    · exact Event.noConfusion h
    · rcases a1 _ h with ha | ha
      · simp [isAction] at ha
      · simp [isStopCmd] at ha

/-- Witness for C7: the listing-failure run, a sweep aborted by a rejected
stop on its first transfer, and the no-summary fact, all at concrete
inputs with an oracle that rejects every stop. -/
theorem C7_error_aborts_run_witness :
    runProgram false (fun _ => false) 5 [] =
      Except.error ⟨[Event.header (headerLine 5)], 0, 0⟩ ∧
    sweepTransfers (fun _ => false) 5 [⟨"x", "seeding", [⟨10, 1⟩]⟩]
        ⟨[], 0, 0⟩ =
      Except.error ⟨[Event.action "[010] x", Event.stopCmd "x"], 0, 1⟩ ∧
    ∀ st2, runProgram true (fun _ => false) 5 [] = Except.error st2 →
      ∀ line, Event.summary line ∉ st2.out :=
  C7_error_aborts_run (fun _ => false) 5 [] ⟨"x", "seeding", [⟨10, 1⟩]⟩
    ⟨[], 0, 0⟩ ⟨[Event.action "[010] x", Event.stopCmd "x"], 0, 1⟩ (by rfl)

/-- C8: whatever happens after it, the first output of a run is the single
header line "Pausing all with >5 seeders or no leechers", and no other
header line is ever printed. -/
theorem C8_header_first (listOk : Bool) (oracle : Nat → Bool)
    (ts : List Transfer) :
    (outOf (mainProgram listOk oracle ts)).head? =
      some (Event.header "Pausing all with >5 seeders or no leechers") ∧
    countHeaders (outOf (mainProgram listOk oracle ts)) = 1 := by
  obtain ⟨suf, hout, hno⟩ : ∃ suf,
      outOf (mainProgram listOk oracle ts) =
        Event.header (headerLine MAX_SEEDERS) :: suf ∧
        ∀ e ∈ suf, isHeader e = false := by
    cases listOk with
    | false => exact ⟨[], rfl, fun e he => absurd he (List.not_mem_nil e)⟩
    | true =>
      obtain ⟨suf, e1, a1⟩ := sweepTransfers_out oracle MAX_SEEDERS ts
        ⟨[Event.header (headerLine MAX_SEEDERS)], 0, 0⟩
      cases hs : sweepTransfers oracle MAX_SEEDERS ts
          ⟨[Event.header (headerLine MAX_SEEDERS)], 0, 0⟩ with
      | ok st =>
        rw [hs] at e1
        refine ⟨suf ++ [Event.summary (summaryLine st.pausedCount)], ?_, ?_⟩
        · show outOf (match sweepTransfers oracle MAX_SEEDERS ts
              ⟨[Event.header (headerLine MAX_SEEDERS)], 0, 0⟩ with
            | Except.ok st =>
              Except.ok (⟨st.out ++
                  [Event.summary (summaryLine st.pausedCount)],
                st.pausedCount, st.nStops⟩ : RunState)
            | Except.error e => Except.error e) = _
          rw [hs]
          show st.out ++ [Event.summary (summaryLine st.pausedCount)] = _
          rw [show st.out = Event.header (headerLine MAX_SEEDERS) :: suf
            from e1]
          rfl
        · intro e he
          rcases List.mem_append.mp he with h | h
          · exact isHeader_eq_false (a1 e h)
          · rw [List.mem_singleton.mp h]
            rfl
      | error e =>
        rw [hs] at e1
        refine ⟨suf, ?_, fun x hx => isHeader_eq_false (a1 x hx)⟩
        show outOf (match sweepTransfers oracle MAX_SEEDERS ts
            ⟨[Event.header (headerLine MAX_SEEDERS)], 0, 0⟩ with
          | Except.ok st =>
            Except.ok (⟨st.out ++
                [Event.summary (summaryLine st.pausedCount)],
              st.pausedCount, st.nStops⟩ : RunState)
          | Except.error e => Except.error e) = _
        rw [hs]
        exact e1
  rw [hout]
  constructor
  · rfl
  · rw [countHeaders_header_cons, countHeaders_eq_zero hno]

/-- C9: in each triggered branch the announcing log line enters the trace
before the stop command; if the service rejects that stop, the run aborts
with the line already printed and the counter not incremented. -/
theorem C9_print_precedes_stop (oracle : Nat → Bool) (threshold : Nat)
    (t : Transfer) (st : RunState) (h1 : t.status = "seeding") :
    (threshold < maxSeeders t → oracle st.nStops = false →
      processTransfer oracle threshold t st =
        Except.error ⟨st.out ++
            [Event.action (seederLine (maxSeeders t) t.name),
             Event.stopCmd t.name],
          st.pausedCount, st.nStops + 1⟩) ∧
    (¬ threshold < maxSeeders t → hasPeers t = false →
      oracle st.nStops = false →
      processTransfer oracle threshold t st =
        Except.error ⟨st.out ++
            [Event.action (nopLine t.name), Event.stopCmd t.name],
          st.pausedCount, st.nStops + 1⟩) := by
  constructor
  · intro h2 ho
    unfold processTransfer branchSeeders doStop
    simp [h1, h2, ho]
  · intro h2 hp ho
    unfold processTransfer branchSeeders branchNoPeers doStop
    simp [h1, h2, hp, ho]

/-- Witness for C9: a rejected stop on a concrete seeding transfer leaves
the seeder line in the trace with the counter still 0. -/
theorem C9_print_precedes_stop_witness :
    processTransfer (fun _ => false) 5 ⟨"x", "seeding", [⟨10, 1⟩]⟩
        ⟨[], 0, 0⟩ =
      Except.error ⟨[Event.action "[010] x", Event.stopCmd "x"], 0, 1⟩ := by
  have h := (C9_print_precedes_stop (fun _ => false) 5
    ⟨"x", "seeding", [⟨10, 1⟩]⟩ ⟨[], 0, 0⟩ rfl).1 (by decide) rfl
  exact h.trans (by rfl)

/-- C10 fails as stated: a run whose first stop command is rejected
reaches a point where one action line was printed and one stop command was
issued while the counter is still 0. -/
theorem C10_point_counterexample :
    runProgram true (fun _ => false) 5 [⟨"x", "seeding", [⟨10, 1⟩]⟩] =
      Except.error ⟨[Event.header (headerLine 5),
                     Event.action "[010] x", Event.stopCmd "x"], 0, 1⟩ ∧
    ¬ ((0 : Nat) = countActions [Event.header (headerLine 5),
        Event.action "[010] x", Event.stopCmd "x"]) ∧
    ¬ ((0 : Nat) = countStops [Event.header (headerLine 5),
        Event.action "[010] x", Event.stopCmd "x"]) := by
  refine ⟨rfl, ?_, ?_⟩ <;> decide

/-- C10 amended: when the service accepts every stop command, the
counter-equals-action-lines-equals-stop-commands invariant is preserved by
the sweep, the counter never decreases, and on the completed run the
summary count equals the total number of action lines printed. -/
theorem C10_counter_accounting (threshold : Nat) (ts : List Transfer)
    (st : RunState) (h1 : st.pausedCount = countActions st.out)
    (h2 : st.pausedCount = countStops st.out) :
    ∃ st2, sweepTransfers okOracle threshold ts st = Except.ok st2 ∧
      st2.pausedCount = countActions st2.out ∧
      st2.pausedCount = countStops st2.out ∧
      st.pausedCount ≤ st2.pausedCount ∧
      ∃ stf, runProgram true okOracle threshold ts = Except.ok stf ∧
        stf.pausedCount = countActions stf.out ∧
        stf.out.getLast? =
          some (Event.summary (summaryLine stf.pausedCount)) := by
  refine ⟨_, sweepTransfers_okOracle threshold ts st, ?_, ?_, ?_,
    _, runProgram_okOracle threshold ts, ?_, ?_⟩
  · show st.pausedCount + (ts.map (triggerCount threshold)).sum =
      countActions (st.out ++ (ts.map (transferEvents threshold)).flatten)
    rw [countActions_append, countActions_flatten, h1]
  · show st.pausedCount + (ts.map (triggerCount threshold)).sum =
      countStops (st.out ++ (ts.map (transferEvents threshold)).flatten)
    rw [countStops_append, countStops_flatten, h2]
  · exact Nat.le_add_right _ _
  · show (ts.map (triggerCount threshold)).sum =
      countActions (Event.header (headerLine threshold) ::
        ((ts.map (transferEvents threshold)).flatten ++
         [Event.summary
           (summaryLine ((ts.map (triggerCount threshold)).sum))]))
    rw [countActions_header_cons, countActions_append, countActions_flatten,
      countActions_summary_single]
    rfl
  · show (Event.header (headerLine threshold) ::
        ((ts.map (transferEvents threshold)).flatten ++
         [Event.summary
           (summaryLine ((ts.map (triggerCount threshold)).sum))])).getLast?
      = _
    rw [← List.cons_append, List.getLast?_concat]

/-- Witness for C10 (amended) at one concrete seeding transfer that
triggers both conditions, starting from the empty initial accounting
state. -/
theorem C10_counter_accounting_witness :
    ∃ st2, sweepTransfers okOracle 5 [⟨"x", "seeding", [⟨10, 0⟩]⟩]
        ⟨[], 0, 0⟩ = Except.ok st2 ∧
      st2.pausedCount = countActions st2.out ∧
      st2.pausedCount = countStops st2.out ∧
      (0 : Nat) ≤ st2.pausedCount ∧
      ∃ stf, runProgram true okOracle 5 [⟨"x", "seeding", [⟨10, 0⟩]⟩] =
          Except.ok stf ∧
        stf.pausedCount = countActions stf.out ∧
        stf.out.getLast? =
          some (Event.summary (summaryLine stf.pausedCount)) :=
  C10_counter_accounting 5 [⟨"x", "seeding", [⟨10, 0⟩]⟩] ⟨[], 0, 0⟩
    (by decide) (by decide)
